import Mathlib

/-!
# Verification of the lancet utility library

Shallow embedding of the behaviour exercised by the repository:

* the `datastructure` package's `HashMap` associative container
  (`NewHashMap`, `Put`, `Get`, `Delete`, `Contains`), whose implementation
  file is not part of the sources at hand — only its tests are — so the
  container is modelled from the specification;
* the `convertor` package's `ToChar`, `ColorHexToRGB` and `ColorRGBToHex`,
  translated from `convertor/convertor.go` together with the pieces of
  Go's `strconv` and `strings` standard library that they call.
-/

set_option autoImplicit false

namespace Lancet

/-! ## The associative container -/

/-- Modelled from the spec: the `HashMap` implementation of the
`datastructure` package is missing from the sources (only its tests are
present).  Following §3 of the spec it is "an internal mapping from string
keys to arbitrary values", kept here as an association list of key/value
pairs; the spec's invariant that keys are unique is proved below for every
reachable state. -/
structure HashMap (V : Type) where
  entries : List (String × V)
deriving DecidableEq

/-- Modelled from the spec: `New() → Container` "returns a new, empty
container". -/
def NewHashMap (V : Type) : HashMap V := ⟨[]⟩

namespace HashMap

variable {V : Type}

/-- Modelled from the spec: `Put(key, value)` "inserts or overwrites the
value for `key`"; a `Put` with an existing key replaces the previously
stored value, keeping at most one entry per key. -/
def Put (m : HashMap V) (k : String) (v : V) : HashMap V :=
  ⟨(k, v) :: m.entries.filter (fun p => !(p.1 == k))⟩

/-- Modelled from the spec: `Get(key)` "returns the stored value for
`key`, or an absent-marker (e.g. a nil sentinel) if `key` was never
inserted or was deleted"; the absent-marker is `none`. -/
def Get (m : HashMap V) (k : String) : Option V :=
  (m.entries.find? (fun p => p.1 == k)).map Prod.snd

/-- Modelled from the spec: `Delete(key)` "removes `key` and its value if
present; no-op (not an error) if `key` is absent". -/
def Delete (m : HashMap V) (k : String) : HashMap V :=
  ⟨m.entries.filter (fun p => !(p.1 == k))⟩

/-- Modelled from the spec: `Contains(key)` "returns true iff `key`
currently maps to a value". -/
def Contains (m : HashMap V) (k : String) : Bool :=
  m.entries.any (fun p => p.1 == k)

end HashMap

/-- A single mutation of the container, used to describe the states
reachable by a sequence of operations starting from `NewHashMap`. -/
inductive Op (V : Type) where
  | put (k : String) (v : V)
  | del (k : String)
deriving DecidableEq

/-- Run one operation against a container state. -/
def step {V : Type} (m : HashMap V) : Op V → HashMap V
  | .put k v => m.Put k v
  | .del k => m.Delete k

/-- The container state reached by running a sequence of operations on a
freshly created container. -/
def run {V : Type} (ops : List (Op V)) : HashMap V :=
  ops.foldl step (NewHashMap V)

/-- Whether, at the end of the given operation sequence, the key `k` has
been inserted and not deleted since: true exactly when some `put k _`
occurs with no later `del k`. -/
def liveAfter {V : Type} (k : String) (ops : List (Op V)) : Bool :=
  ops.foldl
    (fun live op =>
      match op with
      | .put q _ => if q == k then true else live
      | .del q => if q == k then false else live)
    false

/-- The spec's uniqueness invariant: at most one stored value per key,
i.e. the listed keys of the container are pairwise distinct. -/
def nodupKeys {V : Type} (m : HashMap V) : Prop :=
  (m.entries.map Prod.fst).Nodup

/-! ## The convertor package -/

/-- Translation of convertor.ToChar: convert string to char slice.  Go's
range loop appends one one-code-point string per rune, and `len(s) == 0`
first appends the empty string. -/
def ToChar (s : String) : List String :=
  let c : List String := []
  let c := if s.length = 0 then c ++ [""] else c
  c ++ s.data.map (fun v => String.mk [v])

/-- Translation of strconv.FormatInt(i, 16), as called by ColorRGBToHex:
lowercase hexadecimal digits, with a leading minus sign when `i` is
negative. -/
def formatIntHex (i : Int) : String :=
  if i < 0 then "-" ++ String.mk (Nat.toDigits 16 i.natAbs)
  else String.mk (Nat.toDigits 16 i.toNat)

/-- Translation of convertor.ColorRGBToHex: format each channel in base
16, left-pad single digits with "0", and prepend "#".  The formatted
strings are ASCII, so Go's byte length agrees with the character
length used here. -/
def ColorRGBToHex (red green blue : Int) : String :=
  let r := formatIntHex red
  let g := formatIntHex green
  let b := formatIntHex blue
  let r := if r.length = 1 then "0" ++ r else r
  let g := if g.length = 1 then "0" ++ g else g
  let b := if b.length = 1 then "0" ++ b else b
  "#" ++ r ++ g ++ b

/-- Base-16 digit value of one character, as recognised by
strconv.ParseUint: 0-9, a-f and A-F; `none` for every other character. -/
def hexDigitValue (c : Char) : Option Nat :=
  if 48 ≤ c.toNat ∧ c.toNat ≤ 57 then some (c.toNat - 48)
  else if 97 ≤ c.toNat ∧ c.toNat ≤ 102 then some (c.toNat - 97 + 10)
  else if 65 ≤ c.toNat ∧ c.toNat ≤ 70 then some (c.toNat - 65 + 10)
  else none

/-- The accumulating digit loop of strconv.ParseUint in base 16. -/
def parseHexCore : Nat → List Char → Option Nat
  | acc, [] => some acc
  | acc, c :: cs =>
    match hexDigitValue c with
    | none => none
    | some d => parseHexCore (acc * 16 + d) cs

/-- Translation of strconv.ParseUint(s, 16, 32) on the digit part: the
digit string must be nonempty, every character a hex digit, and the value
at most 2^32 - 1; Go reports ErrSyntax or ErrRange otherwise, modelled
as `none`. -/
def parseUintHex32 (cs : List Char) : Option Nat :=
  match cs with
  | [] => none
  | _ =>
    match parseHexCore 0 cs with
    | none => none
    | some n => if n ≤ 4294967295 then some n else none

/-- Translation of strconv.ParseInt(s, 16, 32): an optional leading sign
followed by hex digits, with the value required to fit in the signed
32-bit range; any syntax or range failure (Go `err != nil`) is `none`. -/
def parseIntHex32 (s : String) : Option Int :=
  match s.data with
  | [] => none
  | c :: rest =>
    let neg := c = '-'
    let digits := if c = '-' ∨ c = '+' then rest else c :: rest
    match parseUintHex32 digits with
    | none => none
    | some un =>
      if neg then
        if 2147483648 < un then none else some (-(un : Int))
      else
        if 2147483648 ≤ un then none else some (un : Int)

/-- Translation of strings.TrimPrefix(colorHex, "#"): drop one leading
'#' when present. -/
def trimLeadingHash (s : String) : String :=
  if s.data.head? = some '#' then String.mk s.data.tail else s

/-- Translation of convertor.ColorHexToRGB.  Go's `>>` on int is an
arithmetic right shift and `&` a two's-complement bitwise and, which are
`Int.shiftRight` and `Int.land` here; when parsing fails the named
results keep their zero values, so the function returns (0, 0, 0). -/
def ColorHexToRGB (colorHex : String) : Int × Int × Int :=
  let colorHex := trimLeadingHash colorHex
  match parseIntHex32 colorHex with
  | none => (0, 0, 0)
  | some color =>
    (color >>> (16 : Nat), (Int.land color 0x00FF00) >>> (8 : Nat),
      Int.land color 0x0000FF)

/-- The per-channel formatting performed inside ColorRGBToHex on a
non-negative channel value: lowercase hex digits, left-padded with "0"
to two characters when the value fits in one digit. -/
def pad2hex (n : Nat) : String :=
  let s := String.mk (Nat.toDigits 16 n)
  if s.length = 1 then "0" ++ s else s

/-! ### Basic lemmas about the container operations -/

namespace HashMap

variable {V : Type}

theorem get_put_self (m : HashMap V) (k : String) (v : V) :
    (m.Put k v).Get k = some v := by
  simp [Put, Get, List.find?]

theorem contains_put_self (m : HashMap V) (k : String) (v : V) :
    (m.Put k v).Contains k = true := by
  simp [Put, Contains]

theorem find?_filter_ne (k k' : String) (h : k' ≠ k) :
    ∀ t : List (String × V),
      (t.filter fun p => !(p.1 == k)).find? (fun p => p.1 == k')
        = t.find? (fun p => p.1 == k')
  | [] => rfl
  | p :: t => by
    by_cases hp : p.1 = k
    · rw [List.filter_cons_of_neg (by simp [hp]),
        List.find?_cons_of_neg t (by simp [hp, Ne.symm h]),
        find?_filter_ne k k' h t]
    · rw [List.filter_cons_of_pos (by simp [hp])]
      by_cases hq : p.1 = k'
      · rw [List.find?_cons_of_pos _ (by simp [hq]),
          List.find?_cons_of_pos _ (by simp [hq])]
      · rw [List.find?_cons_of_neg _ (by simp [hq]),
          List.find?_cons_of_neg _ (by simp [hq]),
          find?_filter_ne k k' h t]

theorem get_put_other (m : HashMap V) (k k' : String) (v : V) (h : k' ≠ k) :
    (m.Put k v).Get k' = m.Get k' := by
  simp only [Put, Get]
  rw [List.find?_cons_of_neg _ (by simp [Ne.symm h]), find?_filter_ne k k' h]

theorem contains_eq_isSome_get (m : HashMap V) (k : String) :
    m.Contains k = (m.Get k).isSome := by
  simp only [Contains, Get]
  induction m.entries with
  | nil => rfl
  | cons p t ih =>
    by_cases hp : p.1 = k
    · rw [List.find?_cons_of_pos _ (by simp [hp])]
      simp [hp]
    · rw [List.find?_cons_of_neg _ (by simp [hp])]
      simp only [List.any_cons, ih]
      simp [hp]

theorem get_delete_self (m : HashMap V) (k : String) :
    (m.Delete k).Get k = none := by
  simp only [Delete, Get, Option.map_eq_none', List.find?_eq_none]
  intro p hp
  simp only [List.mem_filter] at hp
  simpa using hp.2

theorem contains_delete_self (m : HashMap V) (k : String) :
    (m.Delete k).Contains k = false := by
  rw [contains_eq_isSome_get, get_delete_self]
  rfl

theorem get_delete_other (m : HashMap V) (k k' : String) (h : k' ≠ k) :
    (m.Delete k).Get k' = m.Get k' := by
  simp only [Delete, Get]
  rw [find?_filter_ne k k' h]

theorem delete_absent (m : HashMap V) (k : String)
    (h : m.Contains k = false) : m.Delete k = m := by
  simp only [Contains] at h
  have hall : ∀ p ∈ m.entries, (!(p.1 == k)) = true := by
    intro p hp
    have := (List.any_eq_false).1 h p hp
    simpa using this
  simp only [Delete]
  cases m with
  | mk es => simp_all [List.filter_eq_self.2 hall]

theorem contains_put_other (m : HashMap V) (k k' : String) (v : V)
    (h : k' ≠ k) : (m.Put k v).Contains k' = m.Contains k' := by
  rw [contains_eq_isSome_get, contains_eq_isSome_get, get_put_other m k k' v h]

theorem contains_delete_other (m : HashMap V) (k k' : String)
    (h : k' ≠ k) : (m.Delete k).Contains k' = m.Contains k' := by
  rw [contains_eq_isSome_get, contains_eq_isSome_get, get_delete_other m k k' h]

theorem get_eq_none_of_contains_eq_false (m : HashMap V) (k : String)
    (h : m.Contains k = false) : m.Get k = none := by
  cases hg : m.Get k with
  | none => rfl
  | some w => rw [contains_eq_isSome_get, hg] at h; simp at h

theorem nodupKeys_put (m : HashMap V) (k : String) (v : V)
    (h : nodupKeys m) : nodupKeys (m.Put k v) := by
  simp only [nodupKeys, Put, List.map_cons, List.nodup_cons]
  constructor
  · intro hk
    rcases List.mem_map.1 hk with ⟨p, hp, hpk⟩
    rcases List.mem_filter.1 hp with ⟨_, hpf⟩
    simp [hpk] at hpf
  · exact List.Nodup.sublist (List.Sublist.map _ (List.filter_sublist _)) h

theorem nodupKeys_delete (m : HashMap V) (k : String)
    (h : nodupKeys m) : nodupKeys (m.Delete k) :=
  List.Nodup.sublist (List.Sublist.map _ (List.filter_sublist _)) h

end HashMap

/-! ### Lemmas about operation sequences -/

theorem contains_step {V : Type} (m : HashMap V) (op : Op V) (k : String) :
    (step m op).Contains k =
      (match op with
       | .put q _ => if q == k then true else m.Contains k
       | .del q => if q == k then false else m.Contains k) := by
  cases op with
  | put q v =>
    by_cases h : q = k
    · subst h; simp [step, HashMap.contains_put_self]
    · simp only [step]
      rw [HashMap.contains_put_other m q k v (Ne.symm h)]
      simp [h]
  | del q =>
    by_cases h : q = k
    · subst h; simp [step, HashMap.contains_delete_self]
    · simp only [step]
      rw [HashMap.contains_delete_other m q k (Ne.symm h)]
      simp [h]

theorem contains_foldl {V : Type} (k : String) :
    ∀ (ops : List (Op V)) (m : HashMap V),
      (ops.foldl step m).Contains k =
        ops.foldl
          (fun live op =>
            match op with
            | Op.put q _ => if q == k then true else live
            | Op.del q => if q == k then false else live)
          (m.Contains k)
  | [], _ => rfl
  | op :: ops, m => by
    rw [List.foldl_cons, List.foldl_cons, contains_foldl k ops (step m op),
      contains_step m op k]

theorem contains_run_eq_liveAfter {V : Type} (ops : List (Op V)) (k : String) :
    (run ops).Contains k = liveAfter k ops :=
  contains_foldl k ops (NewHashMap V)

theorem nodupKeys_foldl {V : Type} :
    ∀ (ops : List (Op V)) (m : HashMap V),
      nodupKeys m → nodupKeys (ops.foldl step m)
  | [], _, h => h
  | op :: ops, m, h => by
    rw [List.foldl_cons]
    refine nodupKeys_foldl ops (step m op) ?_
    cases op with
    | put q v => exact HashMap.nodupKeys_put m q v h
    | del q => exact HashMap.nodupKeys_delete m q h

theorem nodupKeys_run {V : Type} (ops : List (Op V)) :
    nodupKeys (run ops) :=
  nodupKeys_foldl ops (NewHashMap V) (by simp [nodupKeys, NewHashMap])

end Lancet

/-! ## Claim theorems for the container -/

open Lancet Lancet.HashMap

/-- C1: for every key `k` and value `v`, after `Put(k, v)` the call
`Get(k)` returns `v` and `Contains(k)` returns true. -/
theorem hashMap_put_then_get_and_contains {V : Type}
    (m : HashMap V) (k : String) (v : V) :
    (m.Put k v).Get k = some v ∧ (m.Put k v).Contains k = true :=
  ⟨get_put_self m k v, contains_put_self m k v⟩

/-- C2: for every key `k` never inserted, or whose every insertion is
followed by a later deletion (`liveAfter` is false), `Get(k)` returns the
absent-marker `none` and `Contains(k)` returns false; `Get` is a total
Lean function into `Option V`, so it cannot fail on unknown keys. -/
theorem hashMap_unknown_key_absent {V : Type} (ops : List (Op V)) (k : String)
    (h : liveAfter k ops = false) :
    (run ops).Get k = none ∧ (run ops).Contains k = false := by
  have hc : (run ops).Contains k = false := by
    rw [contains_run_eq_liveAfter]; exact h
  exact ⟨get_eq_none_of_contains_eq_false _ _ hc, hc⟩

theorem hashMap_unknown_key_absent_witness :
    liveAfter "abc" [Op.put "abc" (3 : Nat), Op.del "abc"] = false ∧
      (run [Op.put "abc" (3 : Nat), Op.del "abc"]).Get "abc" = none ∧
      (run [Op.put "abc" (3 : Nat), Op.del "abc"]).Contains "abc" = false := by
  have h := hashMap_unknown_key_absent
    [Op.put "abc" (3 : Nat), Op.del "abc"] "abc" (by decide)
  exact ⟨by decide, h.1, h.2⟩

/-- C3: `Put(k, v1)` followed by `Put(k, v2)` makes `Get(k)` return `v2`
(last write wins), and in every reachable container state the stored keys
are pairwise distinct, so at most one value is stored per key. -/
theorem hashMap_put_overwrites {V : Type} :
    (∀ (m : HashMap V) (k : String) (v1 v2 : V),
        ((m.Put k v1).Put k v2).Get k = some v2) ∧
      ∀ ops : List (Op V), ((run ops).entries.map Prod.fst).Nodup :=
  ⟨fun m k _ v2 => get_put_self (m.Put k _) k v2, fun ops => nodupKeys_run ops⟩

/-- C4: `Put(k, v)` followed by `Delete(k)` makes `Get(k)` return the
absent-marker `none` and `Contains(k)` return false. -/
theorem hashMap_put_delete_absent {V : Type} (m : HashMap V) (k : String) (v : V) :
    ((m.Put k v).Delete k).Get k = none ∧
      ((m.Put k v).Delete k).Contains k = false :=
  ⟨get_delete_self _ k, contains_delete_self _ k⟩

/-- C5: a stored "zero" value is observably different from absence: after
`Put(k, z)` on a fresh container `Get(k)` returns `some z`, while on the
fresh container itself (where `k` was never inserted) it returns `none`,
and these two outcomes differ. -/
theorem hashMap_absence_distinguishable {V : Type} (z : V) (k : String) :
    ((NewHashMap V).Put k z).Get k = some z ∧
      (NewHashMap V).Get k = none ∧
      ((NewHashMap V).Put k z).Get k ≠ (NewHashMap V).Get k := by
  refine ⟨get_put_self _ k z, rfl, ?_⟩
  rw [get_put_self _ k z]
  exact fun hcon => Option.noConfusion hcon

/-- C6: deleting an absent key raises no error (Delete is a total Lean
function) and leaves the container state unchanged, so every key's `Get`
and `Contains` results are the same before and after the call. -/
theorem hashMap_delete_absent_noop {V : Type} (m : HashMap V) (k : String)
    (h : m.Contains k = false) :
    m.Delete k = m ∧
      ∀ k', (m.Delete k).Get k' = m.Get k' ∧
        (m.Delete k).Contains k' = m.Contains k' := by
  have hd := delete_absent m k h
  exact ⟨hd, fun k' => by rw [hd]; exact ⟨rfl, rfl⟩⟩

theorem hashMap_delete_absent_noop_witness :
    ((NewHashMap Nat).Put "x" 1).Contains "abc" = false ∧
      ((NewHashMap Nat).Put "x" 1).Delete "abc" = (NewHashMap Nat).Put "x" 1 :=
  ⟨by decide, (hashMap_delete_absent_noop ((NewHashMap Nat).Put "x" 1) "abc"
    (by decide)).1⟩

/-- C7: the four container operations are total functions: `Get` always
returns either a stored value or the absent-marker (never a distinguished
error), and the empty string is a valid key for which `Put`, `Get`,
`Contains` and `Delete` all behave like for any other key. -/
theorem hashMap_operations_total {V : Type} (m : HashMap V) (k : String) (v : V) :
    ((∃ w, m.Get k = some w) ∨ m.Get k = none) ∧
      (m.Put "" v).Get "" = some v ∧
      (m.Put "" v).Contains "" = true ∧
      ((m.Put "" v).Delete "").Get "" = none := by
  refine ⟨?_, get_put_self m "" v, contains_put_self m "" v, get_delete_self _ ""⟩
  cases h : m.Get k with
  | none => exact Or.inr rfl
  | some w => exact Or.inl ⟨w, rfl⟩

/-! ## Claim theorems for the convertor package -/

/-- C8: `ToChar` applied to the empty string returns the one-element
slice containing the empty string, and applied to a non-empty string it
returns one single-code-point string per character of the input, in
order. -/
theorem toChar_empty_and_chars :
    ToChar "" = [""] ∧
      ∀ s : String, s ≠ "" → ToChar s = s.data.map (fun v => String.mk [v]) := by
  refine ⟨rfl, fun s hs => ?_⟩
  have hd : s.data ≠ [] := by
    intro h
    exact hs (String.ext (h.trans rfl))
  have hlen : ¬s.length = 0 := by
    intro h
    exact hd (List.length_eq_zero.1 h)
  simp [ToChar, hlen]

theorem toChar_empty_and_chars_witness :
    "ab" ≠ "" ∧ ToChar "ab" = ["a", "b"] := by
  have h := toChar_empty_and_chars.2 "ab" (by decide)
  exact ⟨by decide, by rw [h]; decide⟩

/-! ### Lemmas for the color conversions -/

set_option maxRecDepth 10000 in
theorem pad2hex_spec : ∀ n : Nat, n < 256 →
    (pad2hex n).data.length = 2 ∧ parseHexCore 0 ((pad2hex n).data) = some n ∧
      (pad2hex n).data.head? ≠ some '-' ∧ (pad2hex n).data.head? ≠ some '+' := by
  decide

theorem parseHexCore_append (ys : List Char) :
    ∀ (xs : List Char) (acc : Nat),
      parseHexCore acc (xs ++ ys)
        = (parseHexCore acc xs).bind (fun a => parseHexCore a ys)
  | [], acc => rfl
  | c :: xs, acc => by
    simp only [List.cons_append, parseHexCore]
    cases h : hexDigitValue c with
    | none => rfl
    | some d => exact parseHexCore_append ys xs (acc * 16 + d)

theorem parseHexCore_acc :
    ∀ (cs : List Char) (acc : Nat),
      parseHexCore acc cs
        = (parseHexCore 0 cs).map (fun v => acc * 16 ^ cs.length + v)
  | [], acc => by simp [parseHexCore]
  | c :: cs, acc => by
    simp only [parseHexCore]
    cases h : hexDigitValue c with
    | none => rfl
    | some d =>
      dsimp only
      rw [parseHexCore_acc cs (acc * 16 + d), parseHexCore_acc cs (0 * 16 + d),
        Option.map_map]
      apply congrFun
      apply congrArg
      funext v
      simp only [Function.comp, List.length_cons, pow_succ]
      ring

theorem and_ff00_shiftRight (x : Nat) : (x &&& 65280) >>> 8 = x / 256 % 256 := by
  have h1 : (65280 : Nat) = 255 <<< 8 := by norm_num [Nat.shiftLeft_eq]
  have h2 : (x &&& 65280) >>> 8 = (x >>> 8) &&& 255 := by
    apply Nat.eq_of_testBit_eq
    intro i
    simp only [Nat.testBit_shiftRight, Nat.testBit_and, h1, Nat.testBit_shiftLeft,
      Nat.add_sub_cancel_left]
    simp [Nat.le_add_right]
  have h3 := Nat.and_pow_two_sub_one_eq_mod (x >>> 8) 8
  norm_num at h3
  rw [h2, h3, Nat.shiftRight_eq_div_pow]

theorem colorChannels_of_cast (n : Nat) :
    (((n : Int) >>> (16 : Nat), (Int.land (n : Int) 0x00FF00) >>> (8 : Nat),
        Int.land (n : Int) 0x0000FF) : Int × Int × Int)
      = (((n / 65536 : Nat) : Int), ((n / 256 % 256 : Nat) : Int),
          ((n % 256 : Nat) : Int)) := by
  have h1 : ((n : Int) >>> (16 : Nat)) = ((n >>> 16 : Nat) : Int) := rfl
  have h2 : (Int.land (n : Int) 0x00FF00) >>> (8 : Nat)
      = (((n &&& 65280) >>> 8 : Nat) : Int) := rfl
  have h3 : Int.land (n : Int) 0x0000FF = ((n &&& 255 : Nat) : Int) := rfl
  have h4 := Nat.and_pow_two_sub_one_eq_mod n 8
  norm_num at h4
  rw [h1, h2, h3, h4, and_ff00_shiftRight, Nat.shiftRight_eq_div_pow]

theorem colorRGBToHex_eq_pad (red green blue : Int)
    (hr : 0 ≤ red) (hg : 0 ≤ green) (hb : 0 ≤ blue) :
    ColorRGBToHex red green blue
      = "#" ++ pad2hex red.toNat ++ pad2hex green.toNat ++ pad2hex blue.toNat := by
  simp only [ColorRGBToHex, formatIntHex, pad2hex]
  rw [if_neg (Int.not_lt.2 hr), if_neg (Int.not_lt.2 hg), if_neg (Int.not_lt.2 hb)]

theorem parse_pad_triple (R G B : Nat) (hR : R < 256) (hG : G < 256) (hB : B < 256) :
    parseIntHex32
        (String.mk ((pad2hex R).data ++ ((pad2hex G).data ++ (pad2hex B).data)))
      = some ((R * 65536 + G * 256 + B : Nat) : Int) := by
  obtain ⟨hRlen, hRparse, hRm, hRp⟩ := pad2hex_spec R hR
  obtain ⟨hGlen, hGparse, -, -⟩ := pad2hex_spec G hG
  obtain ⟨hBlen, hBparse, -, -⟩ := pad2hex_spec B hB
  have hparse :
      parseHexCore 0 ((pad2hex R).data ++ ((pad2hex G).data ++ (pad2hex B).data))
        = some (R * 65536 + G * 256 + B) := by
    rw [parseHexCore_append, hRparse, Option.some_bind, parseHexCore_append,
      parseHexCore_acc, hGparse, hGlen]
    simp only [Option.map_some', Option.some_bind]
    rw [parseHexCore_acc, hBparse, hBlen]
    simp only [Option.map_some']
    norm_num
    ring_nf
  obtain ⟨c1, c2, hc⟩ := List.length_eq_two.1 hRlen
  have hds : (pad2hex R).data ++ ((pad2hex G).data ++ (pad2hex B).data)
      = c1 :: (c2 :: ((pad2hex G).data ++ (pad2hex B).data)) := by
    rw [hc]; rfl
  have hc1m : c1 ≠ '-' := by
    intro h; apply hRm; rw [hc, h]; rfl
  have hc1p : c1 ≠ '+' := by
    intro h; apply hRp; rw [hc, h]; rfl
  rw [hds] at hparse
  have hle : R * 65536 + G * 256 + B ≤ 4294967295 := by omega
  have hlt : ¬ 2147483648 ≤ R * 65536 + G * 256 + B := by omega
  simp [parseIntHex32, hds, parseUintHex32, hparse, hc1m, hc1p, hle, hlt]

/-- C9: for all channel values in 0..255, converting to a hex color
string with ColorRGBToHex and back with ColorHexToRGB returns exactly the
original (red, green, blue) triple. -/
theorem colorHexToRGB_colorRGBToHex_roundTrip (red green blue : Int)
    (hr0 : 0 ≤ red) (hr1 : red ≤ 255) (hg0 : 0 ≤ green) (hg1 : green ≤ 255)
    (hb0 : 0 ≤ blue) (hb1 : blue ≤ 255) :
    ColorHexToRGB (ColorRGBToHex red green blue) = (red, green, blue) := by
  have hR : red.toNat < 256 := by omega
  have hG : green.toNat < 256 := by omega
  have hB : blue.toNat < 256 := by omega
  have hhex := colorRGBToHex_eq_pad red green blue hr0 hg0 hb0
  have hdata : (ColorRGBToHex red green blue).data
      = '#' :: ((pad2hex red.toNat).data
          ++ ((pad2hex green.toNat).data ++ (pad2hex blue.toNat).data)) := by
    rw [hhex]
    simp only [String.data_append, List.append_assoc]
    rfl
  have htrim : trimLeadingHash (ColorRGBToHex red green blue)
      = String.mk ((pad2hex red.toNat).data
          ++ ((pad2hex green.toNat).data ++ (pad2hex blue.toNat).data)) := by
    simp [trimLeadingHash, hdata]
  have hparse := parse_pad_triple red.toNat green.toNat blue.toNat hR hG hB
  simp only [ColorHexToRGB, htrim, hparse]
  rw [colorChannels_of_cast]
  have e1 : (red.toNat * 65536 + green.toNat * 256 + blue.toNat) / 65536
      = red.toNat := by omega
  have e2 : (red.toNat * 65536 + green.toNat * 256 + blue.toNat) / 256 % 256
      = green.toNat := by omega
  have e3 : (red.toNat * 65536 + green.toNat * 256 + blue.toNat) % 256
      = blue.toNat := by omega
  rw [e1, e2, e3, Int.toNat_of_nonneg hr0, Int.toNat_of_nonneg hg0,
    Int.toNat_of_nonneg hb0]

theorem colorHexToRGB_colorRGBToHex_roundTrip_witness :
    ColorHexToRGB (ColorRGBToHex 250 16 7) = (250, 16, 7) :=
  colorHexToRGB_colorRGBToHex_roundTrip 250 16 7 (by norm_num) (by norm_num)
    (by norm_num) (by norm_num) (by norm_num) (by norm_num)

/-- C10: for every input string that, after stripping an optional leading
"#", does not parse as a signed 32-bit hexadecimal integer,
ColorHexToRGB returns (0, 0, 0) without signalling any error, which is
the same result it produces for the valid color black "#000000". -/
theorem colorHexToRGB_invalid_input_black (s : String)
    (h : parseIntHex32 (trimLeadingHash s) = none) :
    ColorHexToRGB s = (0, 0, 0) ∧ ColorHexToRGB s = ColorHexToRGB "#000000" := by
  have h1 : ColorHexToRGB s = (0, 0, 0) := by simp [ColorHexToRGB, h]
  have h2 : ColorHexToRGB "#000000" = (0, 0, 0) := by decide
  exact ⟨h1, h1.trans h2.symm⟩

theorem colorHexToRGB_invalid_input_black_witness :
    parseIntHex32 (trimLeadingHash "zz") = none ∧
      ColorHexToRGB "zz" = (0, 0, 0) ∧
      ColorHexToRGB "zz" = ColorHexToRGB "#000000" := by
  have h := colorHexToRGB_invalid_input_black "zz" (by decide)
  exact ⟨by decide, h.1, h.2⟩
